import Mathlib

/-!
Shallow embedding of the ec2-runner-action core (TypeScript sources under
src/) together with theorems settling the specification claims.

Conventions of the embedding:
- asynchronous provider / registry calls are modelled by explicit traces
  (functions from the call index to the call outcome) or by lists of page
  responses, so every loop of the source becomes a Lean recursion over the
  trace;
- JavaScript timestamps are modelled as natural numbers (epoch seconds for
  parsed dates, epoch milliseconds for durations);
- fallible code returns Except values, and nullable values become Option.
-/

namespace EC2Runner

/-! ## Data model (src/context.ts, src/runner.ts, @aws-sdk types) -/

/-- A GitHub self-hosted runner record (interface Runner in src/runner.ts).
The label objects of the API response are modelled by their name strings. -/
structure Runner where
  id : Nat
  name : String
  status : String
  labels : List String
deriving DecidableEq, Repr

/-- An EC2 machine image as far as the action inspects it
(@aws-sdk/client-ec2 Image).  CreationDate is an ISO-8601 string in the
source; it is modelled as the epoch-second instant that string denotes,
missing when the field is absent.  The expression
new Date(image.CreationDate ?? 0) of the source maps a missing field to the
epoch, i.e. instant 0. -/
structure Image where
  ImageId : Option String
  Name : Option String
  CreationDate : Option Nat
deriving DecidableEq, Repr

/-! ## removeRunner (src/runner.ts lines 215-233, claim C7)

removeRunner looks the runner up by label, returns silently when none is
found, and otherwise issues a single delete-by-id call.  The lookup outcome
and the delete call are modelled as explicit arguments; the second component
of the result collects the runner ids for which a delete call was issued. -/

/-- Embedding of removeRunner: findResult is the settled outcome of
getRunner(ctx, ctx.label); del is the deleteSelfHostedRunnerFromRepo call,
indexed by runner id.  Returns the overall outcome together with the list of
delete calls issued. -/
def removeRunner {ε : Type} (findResult : Except ε (Option Runner))
    (del : Nat → Except ε Unit) : Except ε Unit × List Nat :=
  match findResult with
  | .error e => (.error e, [])
  | .ok none => (.ok (), [])
  | .ok (some runner) =>
    match del runner.id with
    | .ok _ => (.ok (), [runner.id])
    | .error e => (.error e, [runner.id])

/-! ## generateLabel (src/context.ts lines 203-211, claim C6)

The label is the unit identity followed by a dash (omitted for the empty
identity) followed by a timestamp component and a random component.  Both
components are slices of base-36 renderings of nonnegative numbers
(Date.now().toString(36).slice(-4) and Math.random().toString(36).slice(-4)),
so their characters are base-36 digits or a decimal point, never a dash. -/

/-- Embedding of generateLabel for one unit: id is the unit identity, ts and
rand the two generated suffix components. -/
def generateLabel (id ts rand : String) : String :=
  (if id = "" then "" else id ++ "-") ++ ts ++ rand

end EC2Runner

namespace EC2Runner

/-- Splitting a list of characters at a dash is unique when neither left part
contains a dash. -/
theorem dash_split (a1 : List Char) : ∀ (a2 b1 b2 : List Char),
    ('-' : Char) ∉ a1 → ('-' : Char) ∉ a2 →
    a1 ++ '-' :: b1 = a2 ++ '-' :: b2 → a1 = a2 ∧ b1 = b2 := by
  induction a1 with
  | nil =>
    intro a2 b1 b2 _ h2 he
    cases a2 with
    | nil => simpa using he
    | cons c t =>
      simp only [List.nil_append, List.cons_append, List.cons.injEq] at he
      exact absurd (he.1 ▸ List.mem_cons_self c t) h2
  | cons c t ih =>
    intro a2 b1 b2 h1 h2 he
    cases a2 with
    | nil =>
      simp only [List.cons_append, List.nil_append, List.cons.injEq] at he
      exact absurd (he.1 ▸ List.mem_cons_self c t) h1
    | cons d u =>
      simp only [List.cons_append, List.cons.injEq] at he
      have h1t : ('-' : Char) ∉ t := fun hm => h1 (List.mem_cons_of_mem c hm)
      have h2u : ('-' : Char) ∉ u := fun hm => h2 (List.mem_cons_of_mem d hm)
      obtain ⟨hae, hbe⟩ := ih u b1 b2 h1t h2u he.2
      exact ⟨by rw [he.1, hae], hbe⟩

/-- The data of an appended string is the appended data. -/
theorem string_data_append (a b : String) : (a ++ b).data = a.data ++ b.data :=
  rfl

/-- Strings with equal data are equal. -/
theorem string_eq_of_data_eq {a b : String} (h : a.data = b.data) : a = b := by
  cases a
  cases b
  exact congrArg String.mk h

/-- Core of the label-distinctness argument, at the character-list level:
the identity part of a label is recoverable because the suffix carries no
dash. -/
theorem labelData_distinct (id1 id2 s1 s2 : List Char)
    (h1 : ('-' : Char) ∉ s1) (h2 : ('-' : Char) ∉ s2) (hne : id1 ≠ id2) :
    (if id1 = [] then [] else id1 ++ ['-']) ++ s1
      ≠ (if id2 = [] then [] else id2 ++ ['-']) ++ s2 := by
  intro he
  by_cases e1 : id1 = [] <;> by_cases e2 : id2 = []
  · exact hne (e1.trans e2.symm)
  · rw [if_pos e1, if_neg e2] at he
    simp only [List.nil_append, List.append_assoc, List.singleton_append] at he
    have : ('-' : Char) ∈ s1 := by
      rw [he]
      exact List.mem_append_right _ (List.mem_cons_self _ _)
    exact h1 this
  · rw [if_neg e1, if_pos e2] at he
    simp only [List.nil_append, List.append_assoc, List.singleton_append] at he
    have : ('-' : Char) ∈ s2 := by
      rw [← he]
      exact List.mem_append_right _ (List.mem_cons_self _ _)
    exact h2 this
  · rw [if_neg e1, if_neg e2] at he
    simp only [List.append_assoc, List.singleton_append] at he
    have hrev := congrArg List.reverse he
    simp only [List.reverse_append, List.reverse_cons, List.append_assoc,
      List.singleton_append] at hrev
    have h1r : ('-' : Char) ∉ s1.reverse := by simpa using h1
    have h2r : ('-' : Char) ∉ s2.reverse := by simpa using h2
    obtain ⟨-, hid⟩ := dash_split _ _ _ _ h1r h2r hrev
    exact hne (by simpa using congrArg List.reverse hid)

/-- The data of a generated label, as a character list. -/
theorem generateLabel_data (id ts rand : String) :
    (generateLabel id ts rand).data
      = (if id.data = [] then [] else id.data ++ ['-']) ++ (ts.data ++ rand.data) := by
  unfold generateLabel
  by_cases e : id = ""
  · subst e
    simp [string_data_append]
  · have hd : id.data ≠ [] := fun h => e (string_eq_of_data_eq h)
    rw [if_neg e, if_neg hd]
    simp [string_data_append]

/-- C6: worker labels generated for distinct unit identities are distinct,
whatever the timestamp and random suffix components are, as long as neither
component contains a dash (which holds for the base-36 slices the source
generates).  In particular the labels differ even when the suffix components
collide across units. -/
theorem generateLabel_distinct (id1 id2 ts1 rand1 ts2 rand2 : String)
    (h1 : ('-' : Char) ∉ (ts1 ++ rand1).data)
    (h2 : ('-' : Char) ∉ (ts2 ++ rand2).data)
    (hne : id1 ≠ id2) :
    generateLabel id1 ts1 rand1 ≠ generateLabel id2 ts2 rand2 := by
  intro he
  have hd := congrArg String.data he
  rw [generateLabel_data, generateLabel_data] at hd
  have h1l : ('-' : Char) ∉ ts1.data ++ rand1.data := by
    rw [← string_data_append]
    exact h1
  have h2l : ('-' : Char) ∉ ts2.data ++ rand2.data := by
    rw [← string_data_append]
    exact h2
  have hne2 : id1.data ≠ id2.data := fun h => hne (string_eq_of_data_eq h)
  exact labelData_distinct id1.data id2.data _ _ h1l h2l hne2 hd

/-- Witness for C6 at concrete inputs: the identities of the two units
differ, so the generated labels differ even though both suffix components
collide. -/
theorem generateLabel_distinct_witness :
    generateLabel "job1" "abcd" "efgh" ≠ generateLabel "job2" "abcd" "efgh" :=
  generateLabel_distinct "job1" "job2" "abcd" "efgh" "abcd" "efgh"
    (by decide) (by decide) (by decide)

/-- C7: removeRunner on a label with no matching worker record returns
successfully and performs no delete call; on a label with a matching record
it issues exactly one delete call for that runner id and fails exactly when
the delete call fails. -/
theorem removeRunner_spec {ε : Type} (findResult : Except ε (Option Runner))
    (del : Nat → Except ε Unit) :
    (findResult = .ok none → removeRunner findResult del = (.ok (), []))
    ∧ (∀ runner : Runner, findResult = .ok (some runner) →
        (removeRunner findResult del).2 = [runner.id]
        ∧ (del runner.id = .ok () → (removeRunner findResult del).1 = .ok ())
        ∧ (∀ e, del runner.id = .error e →
            (removeRunner findResult del).1 = .error e)) := by
  refine ⟨fun h => by simp [removeRunner, h], fun runner h => ?_⟩
  subst h
  refine ⟨?_, ?_, ?_⟩
  · cases hd : del runner.id <;> simp [removeRunner, hd]
  · intro hd; simp [removeRunner, hd]
  · intro e hd; simp [removeRunner, hd]

/-! ## Launch batch aggregation (src/main.ts lines 152-177, claim C1)

run() for the launch action awaits Promise.allSettled over the per-unit
pipelines, then loops forward over the settled results: a fulfilled result
writes output[ctx.id] = { "instance-id": instanceId, label }, a rejected
result logs the error and sets the failed flag.  The matrix output is then
emitted once, and the batch is marked failed exactly when the flag was set.

Each settled result is modelled as the unit identity paired with an Except
value carrying (instanceId, label) on fulfilment; the output object is
modelled as a partial map from identities, updated with last-write-wins
semantics like a JavaScript object. -/

/-- The "instance-id" / label pair stored per unit in the matrix output
(TerminateOptions in src/context.ts). -/
structure TerminateOptions where
  instanceId : String
  label : String
deriving DecidableEq, Repr

/-- One iteration of the result-collection loop of run(). -/
def collectStep {ε : Type} (acc : (String → Option TerminateOptions) × Bool)
    (result : String × Except ε (String × String)) :
    (String → Option TerminateOptions) × Bool :=
  match result.2 with
  | .ok v => (fun key => if key = result.1 then some ⟨v.1, v.2⟩ else acc.1 key, acc.2)
  | .error _ => (acc.1, true)

/-- The result map and failed flag built by run() from the settled launch
results, in settlement order. -/
def collectLaunch {ε : Type} (results : List (String × Except ε (String × String))) :
    (String → Option TerminateOptions) × Bool :=
  results.foldl collectStep (fun _ => none, false)

/-- The failed flag is monotone along the loop and is set exactly when some
result in the processed suffix was rejected. -/
theorem collectLaunch_failed {ε : Type}
    (results : List (String × Except ε (String × String))) :
    ∀ acc : (String → Option TerminateOptions) × Bool,
    (results.foldl collectStep acc).2 = true ↔
      (acc.2 = true ∨ ∃ p ∈ results, ∃ e, p.2 = .error e) := by
  induction results with
  | nil => simp
  | cons head tail ih =>
    intro acc
    rw [List.foldl_cons, ih]
    rcases head with ⟨key, r⟩
    cases r with
    | ok v =>
      have hstep : (collectStep (ε := ε) acc (key, Except.ok v)).2 = acc.2 := rfl
      rw [hstep]
      refine or_congr_right ⟨fun h => ?_, fun h => ?_⟩
      · obtain ⟨p, hp, e, he⟩ := h
        exact ⟨p, List.mem_cons_of_mem _ hp, e, he⟩
      · obtain ⟨p, hp, e, he⟩ := h
        rcases List.mem_cons.mp hp with heq | htail
        · rw [heq] at he
          exact absurd he (by simp)
        · exact ⟨p, htail, e, he⟩
    | error e =>
      have hstep : (collectStep (ε := ε) acc (key, Except.error e)).2 = true := rfl
      rw [hstep]
      constructor
      · intro _
        exact Or.inr ⟨(key, Except.error e), List.mem_cons_self _ _, e, rfl⟩
      · intro _
        exact Or.inl rfl

/-- Entries whose key does not occur in the processed suffix pass through
the loop unchanged. -/
theorem collectLaunch_notMem {ε : Type}
    (results : List (String × Except ε (String × String))) :
    ∀ (acc : (String → Option TerminateOptions) × Bool) (key : String),
    key ∉ results.map Prod.fst →
    (results.foldl collectStep acc).1 key = acc.1 key := by
  induction results with
  | nil => intro acc key _; rfl
  | cons head tail ih =>
    intro acc key hk
    simp only [List.map_cons, List.mem_cons, not_or] at hk
    rw [List.foldl_cons, ih _ _ hk.2]
    rcases head with ⟨hkey, r⟩
    cases r with
    | ok v =>
      show (if key = hkey then some ⟨v.1, v.2⟩ else acc.1 key) = acc.1 key
      rw [if_neg hk.1]
    | error e => rfl

/-- The map entry produced for an identity that does occur in the settled
results, assuming identities are pairwise distinct: a fulfilled unit binds
its pair, a rejected unit leaves the entry as it was. -/
theorem collectLaunch_mem {ε : Type}
    (results : List (String × Except ε (String × String))) :
    ∀ (acc : (String → Option TerminateOptions) × Bool) (key : String)
      (r : Except ε (String × String)),
    (results.map Prod.fst).Nodup → (key, r) ∈ results →
    (results.foldl collectStep acc).1 key =
      (match r with
       | .ok v => some ⟨v.1, v.2⟩
       | .error _ => acc.1 key) := by
  induction results with
  | nil => intro _ _ _ _ h; simp at h
  | cons head tail ih =>
    intro acc key r hnd hmem
    rcases head with ⟨hkey, hr⟩
    simp only [List.map_cons, List.nodup_cons] at hnd
    rw [List.foldl_cons]
    rcases List.mem_cons.mp hmem with h | h
    · rw [Prod.mk.injEq] at h
      obtain ⟨h1, h2⟩ := h
      subst h1
      subst h2
      have hnotm : key ∉ tail.map Prod.fst := hnd.1
      rw [collectLaunch_notMem tail _ key hnotm]
      cases r with
      | ok v =>
        show (if key = key then some ⟨v.1, v.2⟩ else acc.1 key) = some ⟨v.1, v.2⟩
        rw [if_pos rfl]
      | error e => rfl
    · have hktail : key ∈ tail.map Prod.fst :=
        List.mem_map.mpr ⟨(key, r), h, rfl⟩
      have hne : key ≠ hkey := by
        intro hk
        exact hnd.1 (hk ▸ hktail)
      rw [ih _ key r hnd.2 h]
      cases r with
      | ok v => rfl
      | error e =>
        cases hr with
        | ok w =>
          show (if key = hkey then some ⟨w.1, w.2⟩ else acc.1 key) = acc.1 key
          rw [if_neg hne]
        | error f => rfl

/-- C1: for a launch batch with pairwise-distinct unit identities, the key
set of the emitted result map is exactly the set of identities whose
pipeline succeeded, each key bound to its (instance identifier, worker
label) pair; and the batch is marked failed exactly when at least one unit
was rejected, independently of the successful entries. -/
theorem collectLaunch_spec {ε : Type}
    (results : List (String × Except ε (String × String)))
    (hnd : (results.map Prod.fst).Nodup) :
    (∀ key v, (collectLaunch results).1 key = some ⟨v.1, v.2⟩ ↔ (key, Except.ok v) ∈ results)
    ∧ (∀ key, ((collectLaunch results).1 key).isSome ↔ ∃ v, (key, Except.ok v) ∈ results)
    ∧ ((collectLaunch results).2 = true ↔ ∃ p ∈ results, ∃ e, p.2 = .error e) := by
  have hval : ∀ (key : String) (r : Except ε (String × String)), (key, r) ∈ results →
      (collectLaunch results).1 key =
        (match r with
         | .ok v => some ⟨v.1, v.2⟩
         | .error _ => none) := by
    intro key r hmem
    exact collectLaunch_mem results (fun _ => none, false) key r hnd hmem
  have hnone : ∀ key : String, key ∉ results.map Prod.fst →
      (collectLaunch results).1 key = none := fun key h =>
    collectLaunch_notMem results (fun _ => none, false) key h
  refine ⟨?_, ?_, ?_⟩
  · intro key v
    constructor
    · intro h
      by_cases hk : key ∈ results.map Prod.fst
      · obtain ⟨p, hmem, hfst⟩ := List.mem_map.mp hk
        rcases p with ⟨key2, r⟩
        simp only at hfst
        subst hfst
        have hv := hval key2 r hmem
        cases r with
        | ok w =>
          rw [hv] at h
          have h2 := Option.some.inj h
          have hw : w = (v.1, v.2) :=
            Prod.ext (congrArg TerminateOptions.instanceId h2)
              (congrArg TerminateOptions.label h2)
          rw [hw] at hmem
          exact hmem
        | error e =>
          rw [hv] at h
          exact absurd h (by simp)
      · rw [hnone key hk] at h
        exact absurd h (by simp)
    · intro hmem
      exact hval key (.ok v) hmem
  · intro key
    constructor
    · intro h
      by_cases hk : key ∈ results.map Prod.fst
      · obtain ⟨p, hmem, hfst⟩ := List.mem_map.mp hk
        rcases p with ⟨key2, r⟩
        simp only at hfst
        subst hfst
        cases r with
        | ok w => exact ⟨w, hmem⟩
        | error e =>
          rw [hval key2 (.error e) hmem] at h
          exact absurd h (by simp)
      · rw [hnone key hk] at h
        exact absurd h (by simp)
    · rintro ⟨v, hmem⟩
      rw [hval key (.ok v) hmem]
      rfl
  · exact (collectLaunch_failed results (fun _ => none, false)).trans (by simp)

/-- Witness for C1 at a concrete batch: unit "a" fulfilled, unit "b"
rejected; the key set is exactly the singleton of "a" and the batch is
marked failed. -/
theorem collectLaunch_spec_witness :
    ((collectLaunch (ε := Nat) [("a", .ok ("i-1", "a-x")), ("b", .error 3)]).1 "a"
        = some ⟨"i-1", "a-x"⟩)
    ∧ ¬ ((collectLaunch (ε := Nat)
        [("a", .ok ("i-1", "a-x")), ("b", .error 3)]).1 "b").isSome
    ∧ (collectLaunch (ε := Nat) [("a", .ok ("i-1", "a-x")), ("b", .error 3)]).2 = true := by
  have h := collectLaunch_spec (ε := Nat) [("a", .ok ("i-1", "a-x")), ("b", .error 3)]
    (by decide)
  refine ⟨(h.1 "a" ("i-1", "a-x")).mpr (by simp), ?_, ?_⟩
  · intro hs
    obtain ⟨v, hv⟩ := (h.2.1 "b").mp hs
    simp at hv
  · exact h.2.2.mpr ⟨("b", .error 3), by simp, 3, rfl⟩
theorem removeRunner_spec_witness :
    removeRunner (ε := Unit) (.ok none) (fun _ => .ok ()) = (.ok (), [])
    ∧ (removeRunner (ε := Unit) (.ok (some ⟨7, "r", "online", ["lbl"]⟩))
        (fun _ => .ok ())).2 = [7] :=
  ⟨(removeRunner_spec (ε := Unit) (.ok none) (fun _ => .ok ())).1 rfl,
   ((removeRunner_spec (ε := Unit) (.ok (some ⟨7, "r", "online", ["lbl"]⟩))
      (fun _ => .ok ())).2 ⟨7, "r", "online", ["lbl"]⟩ rfl).1⟩

end EC2Runner

namespace EC2Runner

/-! ## selectAmi (src/ami.ts, claims C2 and C8)

selectAmi pages through DescribeImages responses until no continuation
token remains, rethrowing the first listing failure immediately; it then
applies the optional client-side name-pattern filter, throws when no image
survives, and finally returns the head of the survivor list sorted by the
comparator

  (a, b) => new Date(b.CreationDate ?? 0).getUTCSeconds()
          - new Date(a.CreationDate ?? 0).getUTCSeconds()

getUTCSeconds() is the seconds-of-minute component of the instant, i.e.
(epoch seconds) mod 60, and a missing CreationDate becomes the epoch.
Pages are modelled as the list of listing-call outcomes the provider
produces, a continuation token being present exactly while further pages
remain. -/

/-- new Date(d ?? 0).getUTCSeconds() for a creation instant d in epoch
seconds. -/
def getUTCSeconds (d : Option Nat) : Nat := d.getD 0 % 60

/-- Stable insertion, descending by seconds-of-minute: an earlier image is
placed before any later image whose key is not strictly greater, matching
the stable Array.prototype.sort with the comparator above. -/
def insertBySeconds (i : Image) : List Image → List Image
  | [] => [i]
  | j :: rest =>
    if getUTCSeconds j.CreationDate ≤ getUTCSeconds i.CreationDate then i :: j :: rest
    else j :: insertBySeconds i rest

/-- The stable descending sort images.sort((a, b) => ...) of the source. -/
def sortBySeconds : List Image → List Image
  | [] => []
  | i :: rest => insertBySeconds i (sortBySeconds rest)

/-- The client-side name filter images.filter((i) => i.Name &&
ctx.amiName?.test(i.Name)): a missing or empty Name is falsy, otherwise the
pattern decides. -/
def nameMatches (pat : String → Bool) (i : Image) : Bool :=
  match i.Name with
  | some n => n ≠ "" && pat n
  | none => false

/-- The survivors of the optional name-pattern filter. -/
def applyNameFilter (amiName : Option (String → Bool)) (images : List Image) :
    List Image :=
  match amiName with
  | some pat => images.filter (nameMatches pat)
  | none => images

/-- The do/while pagination loop: concatenates page payloads in order and
aborts on the first failing listing call.  The second component counts the
listing calls made. -/
def fetchPages {ε : Type} : List (Except ε (List Image)) → Except ε (List Image) × Nat
  | [] => (.ok [], 0)
  | p :: rest =>
    match p with
    | .error e => (.error e, 1)
    | .ok imgs =>
      let r := fetchPages rest
      (match r.1 with
       | .ok more => .ok (imgs ++ more)
       | .error e => .error e, r.2 + 1)

/-- The two failure modes of selectAmi: the provider error rethrown from a
listing call, and the "No AMIs found matching filters" error. -/
inductive SelectErr (ε : Type) where
  | provider (e : ε)
  | noMatch
deriving DecidableEq, Repr

/-- Embedding of selectAmi: pages are the listing-call outcomes, amiName the
optional compiled name pattern. -/
def selectAmi {ε : Type} (pages : List (Except ε (List Image)))
    (amiName : Option (String → Bool)) : Except (SelectErr ε) Image :=
  match (fetchPages pages).1 with
  | .error e => .error (.provider e)
  | .ok images =>
    let survivors := applyNameFilter amiName images
    if survivors.isEmpty then .error .noMatch
    else
      match sortBySeconds survivors with
      | [] => .error .noMatch
      | best :: _ => .ok best

/-- Pagination over successful pages only concatenates the payloads and
makes one call per page. -/
theorem fetchPages_ok {ε : Type} (pagesL : List (List Image)) :
    fetchPages (ε := ε) (pagesL.map Except.ok) = (.ok pagesL.flatten, pagesL.length) := by
  induction pagesL with
  | nil => rfl
  | cons p rest ih =>
    simp only [List.map_cons, fetchPages, ih, List.flatten_cons, List.length_cons]

/-- Pagination stops at the first failing listing call: the failure is
returned as is and exactly the pages up to and including the failing one
have been requested. -/
theorem fetchPages_error {ε : Type} (pagesL : List (List Image)) (e : ε)
    (rest : List (Except ε (List Image))) :
    fetchPages (pagesL.map Except.ok ++ .error e :: rest)
      = (.error e, pagesL.length + 1) := by
  induction pagesL with
  | nil => rfl
  | cons p tail ih =>
    simp only [List.map_cons, List.cons_append, fetchPages, List.append_eq, List.length_cons]
    rw [ih]

end EC2Runner

namespace EC2Runner

/-- Inserting never produces the empty list. -/
theorem insertBySeconds_ne_nil (i : Image) (l : List Image) :
    insertBySeconds i l ≠ [] := by
  cases l with
  | nil => simp [insertBySeconds]
  | cons j rest =>
    unfold insertBySeconds
    split <;> simp

/-- Sorting a non-empty survivor list yields a non-empty list. -/
theorem sortBySeconds_ne_nil (l : List Image) (h : l ≠ []) :
    sortBySeconds l ≠ [] := by
  cases l with
  | nil => exact absurd rfl h
  | cons i rest => exact insertBySeconds_ne_nil i (sortBySeconds rest)

/-- C8: selectAmi fails with the provider error of the first failing listing
call, having made exactly the listing calls up to and including the failing
one (no retry of the listing); and when every listing call succeeds it fails
with the no-match error exactly when zero images survive the filters. -/
theorem selectAmi_failure_modes {ε : Type} (pagesL : List (List Image)) (e : ε)
    (rest : List (Except ε (List Image))) (amiName : Option (String → Bool)) :
    (selectAmi (pagesL.map Except.ok ++ .error e :: rest) amiName
        = .error (.provider e)
      ∧ (fetchPages (pagesL.map Except.ok ++ .error e :: rest)).2 = pagesL.length + 1)
    ∧ (selectAmi (ε := ε) (pagesL.map Except.ok) amiName = .error .noMatch
        ↔ applyNameFilter amiName pagesL.flatten = []) := by
  refine ⟨⟨?_, ?_⟩, ?_⟩
  · unfold selectAmi
    rw [fetchPages_error]
  · rw [fetchPages_error]
  · simp only [selectAmi, fetchPages_ok]
    by_cases hempty : (applyNameFilter amiName pagesL.flatten).isEmpty
    · rw [if_pos hempty]
      simp [List.isEmpty_iff.mp hempty]
    · rw [if_neg hempty]
      have hne : applyNameFilter amiName pagesL.flatten ≠ [] := by
        simpa [List.isEmpty_iff] using hempty
      cases hsort : sortBySeconds (applyNameFilter amiName pagesL.flatten) with
      | nil => exact absurd hsort (sortBySeconds_ne_nil _ hne)
      | cons b t => simp [hne]

/-- An image created at epoch second 60 (1970-01-01T00:01:00Z), the more
recent of the two candidates. -/
def amiNewer : Image := ⟨some "ami-newer", some "runner", some 60⟩

/-- An image created at epoch second 59 (1970-01-01T00:00:59Z), the older
of the two candidates but with the larger seconds-of-minute component. -/
def amiOlder : Image := ⟨some "ami-older", some "runner", some 59⟩

/-- C2: on the candidate set consisting of amiNewer (created at instant 60)
and amiOlder (created at instant 59), selectAmi returns amiOlder even though
its creation timestamp is strictly smaller, because the comparator ranks
images by seconds-of-minute instead of by instant.  This exhibits the latent
defect: the returned image is not the one with the greatest creation
timestamp among the survivors. -/
theorem selectAmi_seconds_bug :
    selectAmi (ε := Unit) [Except.ok [amiNewer, amiOlder]] none = .ok amiOlder
    ∧ amiOlder.CreationDate.getD 0 < amiNewer.CreationDate.getD 0 := by
  exact ⟨rfl, by decide⟩

end EC2Runner

namespace EC2Runner

/-! ## retryIfRateLimited (src/instance.ts, claims C3 and C10)

The wrapper schedules the underlying call on a setInterval with a 10 000 ms
period and a budget of 6 attempts: the first attempt therefore happens one
full interval after invocation, attempts are 10 seconds apart, a success
resolves the promise, and a failure increments the attempt counter and
rejects once the counter reaches 6 or the error is not a retryable
EC2ServiceException.  Attempts are modelled by a trace from the attempt
index (0-based) to the call outcome; a non-EC2ServiceException error is an
err outcome with retryable = false. -/

/-- One outcome of the wrapped operation: success with a value, or an error
together with its retryability flag (err instanceof EC2ServiceException &&
err.$retryable). -/
inductive OpResult (ε τ : Type) where
  | ok (t : τ)
  | err (e : ε) (retryable : Bool)
deriving DecidableEq, Repr

/-- The retry loop, started with retried failed attempts already counted:
returns the settled outcome together with the total number of attempts
made. -/
def retryIfRateLimitedAux {ε τ : Type} (trace : Nat → OpResult ε τ)
    (retries retried : Nat) : Except ε τ × Nat :=
  match trace retried with
  | .ok t => (.ok t, retried + 1)
  | .err e r =>
    if retried + 1 ≥ retries ∨ r = false then (.error e, retried + 1)
    else retryIfRateLimitedAux trace retries (retried + 1)
termination_by retries - retried
decreasing_by
  rename_i h
  rw [not_or] at h
  omega

/-- retryIfRateLimited with its default options: 6 retries, 10 000 ms
interval. -/
def retryIfRateLimited {ε τ : Type} (trace : Nat → OpResult ε τ) :
    Except ε τ × Nat :=
  retryIfRateLimitedAux trace 6 0

/-- The clock time, in milliseconds after invocation of the wrapper, at
which attempt i (0-based) runs: setInterval fires first after one full
period. -/
def attemptTimeMs (i : Nat) : Nat := 10000 * (i + 1)

/-- The clock time at which the wrapped operation settles, namely the time
of its last attempt. -/
def retryCompletionTimeMs {ε τ : Type} (trace : Nat → OpResult ε τ) : Nat :=
  attemptTimeMs ((retryIfRateLimited trace).2 - 1)

/-- Unfolding the loop at a successful attempt. -/
theorem retryAux_ok {ε τ : Type} (trace : Nat → OpResult ε τ)
    (retries retried : Nat) (t : τ) (h : trace retried = .ok t) :
    retryIfRateLimitedAux trace retries retried = (.ok t, retried + 1) := by
  rw [retryIfRateLimitedAux, h]

/-- Unfolding the loop at a failing attempt. -/
theorem retryAux_err {ε τ : Type} (trace : Nat → OpResult ε τ)
    (retries retried : Nat) (e : ε) (r : Bool) (h : trace retried = .err e r) :
    retryIfRateLimitedAux trace retries retried
      = if retried + 1 ≥ retries ∨ r = false then (.error e, retried + 1)
        else retryIfRateLimitedAux trace retries (retried + 1) := by
  rw [retryIfRateLimitedAux, h]

/-- Unfolding the loop across a block of retryable failures. -/
theorem retryAux_skip {ε τ : Type} (trace : Nat → OpResult ε τ) (retries : Nat)
    (d : Nat) : ∀ retried : Nat,
    (∀ i, retried ≤ i → i < retried + d → ∃ e, trace i = .err e true) →
    retried + d < retries →
    retryIfRateLimitedAux trace retries retried
      = retryIfRateLimitedAux trace retries (retried + d) := by
  induction d with
  | zero => intro retried _ _; rfl
  | succ d ih =>
    intro retried h hlt
    obtain ⟨e, he⟩ := h retried le_rfl (by omega)
    rw [retryAux_err trace retries retried e true he]
    have hcond : ¬ (retried + 1 ≥ retries ∨ (true : Bool) = false) := by
      rw [not_or]
      exact ⟨by omega, by simp⟩
    rw [if_neg hcond]
    have hstep := ih (retried + 1) (fun i h1 h2 => h i (by omega) (by omega)) (by omega)
    rw [hstep]
    congr 1
    omega

/-- C3: if the call fails with a retryable error on every attempt before
attempt j and succeeds at attempt j (0-based, j < 6), the wrapper succeeds
with that result after j + 1 attempts; if it fails retryably on all 6
attempts the wrapper fails with the last error after exactly 6 attempts,
not 7; and a non-retryable error at attempt j settles the wrapper with that
error immediately, with no attempt after it. -/
theorem retryIfRateLimited_spec {ε τ : Type} (trace : Nat → OpResult ε τ) :
    (∀ (e : Nat → ε) (t : τ) (j : Nat), j < 6 →
      (∀ i, i < j → trace i = .err (e i) true) → trace j = .ok t →
      retryIfRateLimited trace = (.ok t, j + 1))
    ∧ (∀ e : Nat → ε, (∀ i, i < 6 → trace i = .err (e i) true) →
      retryIfRateLimited trace = (.error (e 5), 6))
    ∧ (∀ (e : Nat → ε) (f : ε) (j : Nat), j < 6 →
      (∀ i, i < j → trace i = .err (e i) true) → trace j = .err f false →
      retryIfRateLimited trace = (.error f, j + 1)) := by
  refine ⟨?_, ?_, ?_⟩
  · intro e t j hj h hok
    unfold retryIfRateLimited
    rw [retryAux_skip trace 6 j 0
      (fun i h1 h2 => ⟨e i, h i (by omega)⟩) (by omega)]
    rw [Nat.zero_add]
    exact retryAux_ok trace 6 j t hok
  · intro e h
    unfold retryIfRateLimited
    rw [retryAux_skip trace 6 5 0
      (fun i h1 h2 => ⟨e i, h i (by omega)⟩) (by omega)]
    rw [Nat.zero_add]
    rw [retryAux_err trace 6 5 (e 5) true (h 5 (by omega))]
    rw [if_pos (Or.inl (by omega))]
  · intro e f j hj h herr
    unfold retryIfRateLimited
    rw [retryAux_skip trace 6 j 0
      (fun i h1 h2 => ⟨e i, h i (by omega)⟩) (by omega)]
    rw [Nat.zero_add]
    rw [retryAux_err trace 6 j f false herr]
    rw [if_pos (Or.inr rfl)]

/-- Witness for C3 at concrete traces: success at attempt 2 after two
retryable failures, failure after all six attempts fail retryably, and
immediate failure at attempt 1 on a non-retryable error. -/
theorem retryIfRateLimited_spec_witness :
    retryIfRateLimited (fun i => if i < 2 then .err 0 true else .ok 42)
      = (.ok 42, 3)
    ∧ retryIfRateLimited (fun i => (.err i true : OpResult Nat Nat))
      = (.error 5, 6)
    ∧ retryIfRateLimited
        (fun i => if i = 0 then .err 0 true else (.err 9 false : OpResult Nat Nat))
      = (.error 9, 2) := by
  refine ⟨?_, ?_, ?_⟩
  · exact (retryIfRateLimited_spec (fun i => if i < 2 then .err 0 true else .ok 42)).1
      (fun _ => 0) 42 2 (by omega) (by decide) (by decide)
  · exact (retryIfRateLimited_spec (fun i => (.err i true : OpResult Nat Nat))).2.1
      (fun i => i) (fun i _ => rfl)
  · exact (retryIfRateLimited_spec
        (fun i => if i = 0 then .err 0 true else (.err 9 false : OpResult Nat Nat))).2.2
      (fun _ => 0) 9 1 (by omega) (by decide) (by decide)

/-- Every run of the wrapper makes at least one attempt. -/
theorem retryAux_attempts_pos {ε τ : Type} (trace : Nat → OpResult ε τ)
    (retries : Nat) : ∀ retried : Nat,
    retried + 1 ≤ (retryIfRateLimitedAux trace retries retried).2 := by
  have key : ∀ fuel retried, retries - retried ≤ fuel →
      retried + 1 ≤ (retryIfRateLimitedAux trace retries retried).2 := by
    intro fuel
    induction fuel with
    | zero =>
      intro retried hle
      cases htr : trace retried with
      | ok t =>
        rw [retryAux_ok trace retries retried t htr]
      | err e r =>
        rw [retryAux_err trace retries retried e r htr]
        rw [if_pos (Or.inl (by omega))]
    | succ fuel ih =>
      intro retried hle
      cases htr : trace retried with
      | ok t =>
        rw [retryAux_ok trace retries retried t htr]
      | err e r =>
        rw [retryAux_err trace retries retried e r htr]
        by_cases hc : retried + 1 ≥ retries ∨ r = false
        · rw [if_pos hc]
        · rw [if_neg hc]
          rw [not_or] at hc
          have hstep := ih (retried + 1) (by omega)
          omega
  intro retried
  exact key (retries - retried) retried le_rfl

/-- C10: the wrapper never settles before one full 10-second interval has
elapsed, even when the very first attempt succeeds, because setInterval
makes the first attempt only after one period. -/
theorem retry_min_latency {ε τ : Type} (trace : Nat → OpResult ε τ) :
    attemptTimeMs 0 = 10000 ∧ 10000 ≤ retryCompletionTimeMs trace := by
  refine ⟨rfl, ?_⟩
  have h1 := retryAux_attempts_pos trace 6 0
  unfold retryCompletionTimeMs retryIfRateLimited attemptTimeMs
  unfold retryIfRateLimited at h1
  omega

end EC2Runner

namespace EC2Runner

/-! ## waitForRunner (src/runner.ts lines 172-213, claim C4)

waitForRunner sleeps WAIT = 30 000 ms, then starts a setInterval with
period INTERVAL = 10 000 ms whose callback calls getRunner: a runner with
status "online" clears the interval and resolves; otherwise the waited
counter grows by INTERVAL and, once it exceeds TIMEOUT = 600 000 ms, the
interval is cleared and the promise rejects with the timeout error; a
rejection of getRunner itself rejects the promise immediately WITHOUT
clearing the interval (the clearInterval call is absent from this path in
the source).  Poll outcomes are modelled as a trace indexed by the 0-based
poll number; the embedding records the settled outcome, the number of polls
made up to settlement, and whether the interval was cleared when the
promise settled.  The two duration constants are passed to the loop as
parameters, with the positivity of the interval as the termination witness;
waitForRunner instantiates them with the constants of the source. -/

/-- TIMEOUT of src/runner.ts, in milliseconds. -/
def TIMEOUT : Nat := 10 * 60 * 1000

/-- INTERVAL of src/runner.ts, in milliseconds. -/
def INTERVAL : Nat := 10 * 1000

/-- WAIT of src/runner.ts, in milliseconds. -/
def WAIT : Nat := 30 * 1000

/-- r.status === "online". -/
def statusOnline (r : Runner) : Bool := r.status = "online"

/-- How the modelled wait settles. -/
inductive WaitOutcome (ε : Type) where
  | online (r : Runner)
  | timedOut
  | pollFail (e : ε)
deriving DecidableEq, Repr

/-- The settled state of waitForRunner: outcome, number of getRunner calls
made up to settlement, and whether clearInterval had been called when the
promise settled. -/
structure WaitResult (ε : Type) where
  outcome : WaitOutcome ε
  polls : Nat
  intervalCleared : Bool
deriving DecidableEq, Repr

/-- The poll loop of waitForRunner: tmo and itv are the TIMEOUT and
INTERVAL constants, waited the accumulated poll time before the current
poll, n the 0-based index of the current poll. -/
def waitForRunnerAux {ε : Type} (trace : Nat → Except ε (Option Runner))
    (tmo itv : Nat) (hpos : 0 < itv) (waited n : Nat) : WaitResult ε :=
  match trace n with
  | .error e => ⟨.pollFail e, n + 1, false⟩
  | .ok (some runner) =>
    if statusOnline runner then ⟨.online runner, n + 1, true⟩
    else if waited + itv > tmo then ⟨.timedOut, n + 1, true⟩
    else waitForRunnerAux trace tmo itv hpos (waited + itv) (n + 1)
  | .ok none =>
    if waited + itv > tmo then ⟨.timedOut, n + 1, true⟩
    else waitForRunnerAux trace tmo itv hpos (waited + itv) (n + 1)
termination_by tmo + itv - waited
decreasing_by
  all_goals omega

/-- The interval period is positive (termination witness of the loop). -/
theorem intervalPos : 0 < INTERVAL := by norm_num [INTERVAL]

/-- Embedding of waitForRunner, after the initial 30-second grace sleep. -/
def waitForRunner {ε : Type} (trace : Nat → Except ε (Option Runner)) :
    WaitResult ε :=
  waitForRunnerAux trace TIMEOUT INTERVAL intervalPos 0 0

/-- The clock time, in milliseconds after waitForRunner is entered, at which
poll n (0-based) runs: the 30-second grace sleep followed by n + 1 interval
periods. -/
def pollTimeMs (n : Nat) : Nat := WAIT + INTERVAL * (n + 1)

/-- A poll outcome that keeps the loop waiting: getRunner resolved but
either found no runner or found one whose status is not online. -/
def pendingPoll {ε : Type} (p : Except ε (Option Runner)) : Bool :=
  match p with
  | .ok none => true
  | .ok (some r) => !(statusOnline r)
  | .error _ => false

/-- Unfolding a poll whose getRunner call rejected. -/
theorem waitAux_error {ε : Type} (trace : Nat → Except ε (Option Runner))
    (tmo itv : Nat) (hpos : 0 < itv) (waited n : Nat) (e : ε)
    (h : trace n = .error e) :
    waitForRunnerAux trace tmo itv hpos waited n = ⟨.pollFail e, n + 1, false⟩ := by
  rw [waitForRunnerAux, h]

/-- Unfolding a poll that found a runner. -/
theorem waitAux_found {ε : Type} (trace : Nat → Except ε (Option Runner))
    (tmo itv : Nat) (hpos : 0 < itv) (waited n : Nat) (runner : Runner)
    (h : trace n = .ok (some runner)) :
    waitForRunnerAux trace tmo itv hpos waited n
      = if statusOnline runner then ⟨.online runner, n + 1, true⟩
        else if waited + itv > tmo then ⟨.timedOut, n + 1, true⟩
        else waitForRunnerAux trace tmo itv hpos (waited + itv) (n + 1) := by
  rw [waitForRunnerAux, h]

/-- Unfolding a poll that found no runner. -/
theorem waitAux_none {ε : Type} (trace : Nat → Except ε (Option Runner))
    (tmo itv : Nat) (hpos : 0 < itv) (waited n : Nat) (h : trace n = .ok none) :
    waitForRunnerAux trace tmo itv hpos waited n
      = if waited + itv > tmo then ⟨.timedOut, n + 1, true⟩
        else waitForRunnerAux trace tmo itv hpos (waited + itv) (n + 1) := by
  rw [waitForRunnerAux, h]

/-- Unfolding the poll loop across a block of pending polls. -/
theorem waitAux_skip {ε : Type} (trace : Nat → Except ε (Option Runner))
    (tmo itv : Nat) (hpos : 0 < itv) (d : Nat) : ∀ n : Nat,
    (∀ i, n ≤ i → i < n + d → pendingPoll (trace i) = true) →
    (n + d) * itv ≤ tmo →
    waitForRunnerAux trace tmo itv hpos (n * itv) n
      = waitForRunnerAux trace tmo itv hpos ((n + d) * itv) (n + d) := by
  induction d with
  | zero => intro n _ _; rfl
  | succ d ih =>
    intro n h hle
    have hp := h n le_rfl (by omega)
    have hgrow : n * itv + itv = (n + 1) * itv := by ring
    have hnext : ¬ (n * itv + itv > tmo) := by
      rw [hgrow]
      have hmono : (n + 1) * itv ≤ (n + (d + 1)) * itv :=
        Nat.mul_le_mul_right itv (by omega)
      omega
    have hstep : waitForRunnerAux trace tmo itv hpos (n * itv) n
        = waitForRunnerAux trace tmo itv hpos ((n + 1) * itv) (n + 1) := by
      cases htr : trace n with
      | error e =>
        rw [htr] at hp
        simp [pendingPoll] at hp
      | ok r =>
        cases r with
        | none =>
          rw [waitAux_none trace tmo itv hpos _ n htr, if_neg hnext, hgrow]
        | some runner =>
          rw [htr] at hp
          have hnot : statusOnline runner = false := by
            simpa [pendingPoll] using hp
          rw [waitAux_found trace tmo itv hpos _ n runner htr,
            if_neg (by simp [hnot]), if_neg hnext, hgrow]
    rw [hstep]
    have harr : n + (d + 1) = n + 1 + d := by omega
    rw [harr]
    exact ih (n + 1) (fun i h1 h2 => h i (by omega) (by omega))
      (by rw [← harr]; exact hle)

end EC2Runner

namespace EC2Runner

/-- C4 (amended): after the 30-second grace sleep, polls run every 10
seconds; the wait resolves with the worker at the first poll that reports a
runner with status online (within the 61-poll budget), clearing the
interval; if polls 0 through 60 all stay pending the wait rejects with the
timeout error at poll 61, when the accumulated poll time first exceeds the
10-minute budget (the grace sleep is not counted), clearing the interval;
and a failing poll call rejects the wait immediately with that error, with
no poll after it, but WITHOUT clearing the interval, so the poll loop is
not canceled on this path. -/
theorem waitForRunner_spec {ε : Type} (trace : Nat → Except ε (Option Runner)) :
    (WAIT = 30000 ∧ INTERVAL = 10000 ∧ TIMEOUT = 600000
      ∧ pollTimeMs 0 = WAIT + INTERVAL)
    ∧ (∀ (k : Nat) (runner : Runner), k ≤ 60 →
        (∀ i, i < k → pendingPoll (trace i) = true) →
        trace k = .ok (some runner) → statusOnline runner = true →
        waitForRunner trace = ⟨.online runner, k + 1, true⟩)
    ∧ ((∀ i, i ≤ 60 → pendingPoll (trace i) = true) →
        waitForRunner trace = ⟨.timedOut, 61, true⟩)
    ∧ (∀ (j : Nat) (e : ε), j ≤ 60 →
        (∀ i, i < j → pendingPoll (trace i) = true) →
        trace j = .error e →
        waitForRunner trace = ⟨.pollFail e, j + 1, false⟩) := by
  have hstart : ∀ d : Nat, d ≤ 60 → (∀ i, i < d → pendingPoll (trace i) = true) →
      waitForRunner trace = waitForRunnerAux trace TIMEOUT INTERVAL intervalPos
        (d * INTERVAL) d := by
    intro d hd hp
    have hskip := waitAux_skip trace TIMEOUT INTERVAL intervalPos d 0
      (fun i h1 h2 => hp i (by omega))
      (by simp only [Nat.zero_add, INTERVAL, TIMEOUT]; omega)
    simpa only [Nat.zero_mul, Nat.zero_add] using hskip
  refine ⟨⟨rfl, rfl, rfl, rfl⟩, ?_, ?_, ?_⟩
  · intro k runner hk hp htr honline
    rw [hstart k hk hp]
    rw [waitAux_found trace TIMEOUT INTERVAL intervalPos (k * INTERVAL) k runner htr]
    rw [if_pos honline]
  · intro hp
    rw [hstart 60 le_rfl (fun i hi => hp i (by omega))]
    have hover : 60 * INTERVAL + INTERVAL > TIMEOUT := by
      simp only [INTERVAL, TIMEOUT]
      omega
    have hp60 := hp 60 le_rfl
    cases htr : trace 60 with
    | error e =>
      rw [htr] at hp60
      simp [pendingPoll] at hp60
    | ok r =>
      cases r with
      | none =>
        rw [waitAux_none trace TIMEOUT INTERVAL intervalPos _ 60 htr, if_pos hover]
      | some runner =>
        rw [htr] at hp60
        have hnot : statusOnline runner = false := by
          simpa [pendingPoll] using hp60
        rw [waitAux_found trace TIMEOUT INTERVAL intervalPos _ 60 runner htr,
          if_neg (by simp [hnot]), if_pos hover]
  · intro j e hj hp htr
    rw [hstart j hj hp]
    exact waitAux_error trace TIMEOUT INTERVAL intervalPos (j * INTERVAL) j e htr

/-- A poll trace whose very first getRunner call rejects. -/
def pollErrTrace : Nat → Except Nat (Option Runner) := fun _ => .error 7

/-- C4 counterexample to the claim as stated: when the first poll call
errors, waitForRunner does reject immediately with that error, but the
interval is NOT cleared at settlement (the source omits clearInterval on
this rejection path, unlike the success and timeout paths), so the claim
that the poll loop is canceled is false on this input. -/
theorem waitForRunner_cancel_refuted :
    (waitForRunner pollErrTrace).outcome = WaitOutcome.pollFail 7
    ∧ (waitForRunner pollErrTrace).intervalCleared = false := by
  have h := waitAux_error pollErrTrace TIMEOUT INTERVAL intervalPos 0 0 7 rfl
  unfold waitForRunner
  rw [h]
  exact ⟨rfl, rfl⟩

/-- A runner that is online and carries the awaited label. -/
def onlineRunner : Runner := ⟨5, "runner-a", "online", ["job1-abcdwxyz"]⟩

/-- A poll trace that finds nothing at poll 0 and an online runner at
poll 1. -/
def pollOkTrace : Nat → Except Nat (Option Runner) := fun n =>
  if n = 0 then .ok none else .ok (some onlineRunner)

/-- Witness for C4 at a concrete trace: one pending poll, then an online
runner at the second poll; the wait resolves with it after 2 polls, with
the interval cleared. -/
theorem waitForRunner_spec_witness :
    waitForRunner pollOkTrace = ⟨.online onlineRunner, 2, true⟩ :=
  (waitForRunner_spec pollOkTrace).2.1 1 onlineRunner (by omega)
    (by decide) rfl rfl

end EC2Runner

namespace EC2Runner

/-! ## getRunner (src/runner.ts lines 132-153, claim C9)

getRunner pages through listSelfHostedRunnersForRepo starting at page 1,
appending each page to the accumulator, and returns (searching the
accumulator for the label) exactly when the accumulator length EQUALS the
page's reported total_count; otherwise it requests the next page forever.
The provider is modelled as a trace from the 1-based page number to the
page response; the loop is modelled with explicit fuel, the value none
meaning that the loop did not return within that many page requests. -/

/-- One page of the list-runners response: the runners of the page and the
reported total_count. -/
structure RunnersPage where
  runners : List Runner
  total_count : Nat

/-- r.labels.some((l) => l.name === label). -/
def matchesLabel (label : String) (r : Runner) : Bool :=
  r.labels.any (fun l => l = label)

/-- The pagination loop with fuel: page is the next page to request, acc
the accumulated runners.  Returns none when fuel runs out before the loop
returns. -/
def getRunnerAux (trace : Nat → RunnersPage) (label : String) :
    Nat → Nat → List Runner → Option (Option Runner)
  | 0, _, _ => none
  | fuel + 1, page, acc =>
    let res := trace page
    let acc2 := acc ++ res.runners
    if acc2.length = res.total_count then
      some (acc2.find? (matchesLabel label))
    else
      getRunnerAux trace label fuel (page + 1) acc2

/-- Embedding of getRunner, bounded by fuel page requests: pages are
numbered from 1 as in the source. -/
def getRunner (trace : Nat → RunnersPage) (label : String) (fuel : Nat) :
    Option (Option Runner) :=
  getRunnerAux trace label fuel 1 []

/-- The runners accumulated after fetching pages 1 through n. -/
def accRunners (trace : Nat → RunnersPage) (n : Nat) : List Runner :=
  (List.range n).flatMap (fun i => (trace (i + 1)).runners)

/-- Accumulation unfolds one page at a time. -/
theorem accRunners_succ (trace : Nat → RunnersPage) (n : Nat) :
    accRunners trace (n + 1) = accRunners trace n ++ (trace (n + 1)).runners := by
  unfold accRunners
  rw [List.range_succ, List.flatMap_append]
  simp

/-- If the loop returns within some fuel, some page made the equality check
pass. -/
theorem getRunnerAux_some_imp (trace : Nat → RunnersPage) (label : String) :
    ∀ (fuel q : Nat),
    (getRunnerAux trace label fuel (q + 1) (accRunners trace q)).isSome →
    ∃ n, (accRunners trace (n + 1)).length = (trace (n + 1)).total_count := by
  intro fuel
  induction fuel with
  | zero =>
    intro q h
    simp [getRunnerAux] at h
  | succ fuel ih =>
    intro q h
    rw [getRunnerAux] at h
    by_cases hc : (accRunners trace q ++ (trace (q + 1)).runners).length
        = (trace (q + 1)).total_count
    · exact ⟨q, by rw [accRunners_succ]; exact hc⟩
    · rw [if_neg hc] at h
      rw [← accRunners_succ] at h
      exact ih (q + 1) h

/-- If some page within the fuel budget makes the equality check pass, the
loop returns within that fuel. -/
theorem getRunnerAux_some_of (trace : Nat → RunnersPage) (label : String) :
    ∀ (fuel q : Nat),
    (∃ d, d < fuel ∧
      (accRunners trace (q + d + 1)).length = (trace (q + d + 1)).total_count) →
    (getRunnerAux trace label fuel (q + 1) (accRunners trace q)).isSome := by
  intro fuel
  induction fuel with
  | zero =>
    rintro q ⟨d, hd, _⟩
    omega
  | succ fuel ih =>
    rintro q ⟨d, hd, hc⟩
    rw [getRunnerAux]
    by_cases h1 : (accRunners trace q ++ (trace (q + 1)).runners).length
        = (trace (q + 1)).total_count
    · rw [if_pos h1]
      simp
    · rw [if_neg h1, ← accRunners_succ]
      apply ih (q + 1)
      cases d with
      | zero =>
        exact absurd (by simpa [accRunners_succ] using hc) h1
      | succ d2 =>
        refine ⟨d2, by omega, ?_⟩
        have harr : q + 1 + d2 + 1 = q + (d2 + 1) + 1 := by omega
        rw [harr]
        exact hc

/-- C9: getRunner terminates precisely when, for some page, the number of
runners accumulated through that page equals the total_count that page
reports; and on every trace where the accumulated count never equals the
reported total (for example empty pages with a positive reported total, or
a shrinking total overshot by the accumulator), the pagination loop runs
forever, because the loop condition is equality rather than
greater-or-equal. -/
theorem getRunner_terminates_iff (trace : Nat → RunnersPage) (label : String) :
    ((∃ fuel, (getRunner trace label fuel).isSome) ↔
      ∃ n, (accRunners trace (n + 1)).length = (trace (n + 1)).total_count)
    ∧ ((∀ n, (accRunners trace (n + 1)).length ≠ (trace (n + 1)).total_count) →
      ∀ fuel, getRunner trace label fuel = none) := by
  have hiff : (∃ fuel, (getRunner trace label fuel).isSome) ↔
      ∃ n, (accRunners trace (n + 1)).length = (trace (n + 1)).total_count := by
    constructor
    · rintro ⟨fuel, h⟩
      exact getRunnerAux_some_imp trace label fuel 0 h
    · rintro ⟨n, hn⟩
      refine ⟨n + 1, ?_⟩
      exact getRunnerAux_some_of trace label (n + 1) 0
        ⟨n, by omega, by simpa using hn⟩
  refine ⟨hiff, ?_⟩
  intro hne fuel
  cases hg : getRunner trace label fuel with
  | none => rfl
  | some r =>
    obtain ⟨n, hn⟩ := hiff.mp ⟨fuel, by rw [hg]; rfl⟩
    exact absurd hn (hne n)

/-- A provider trace of empty pages, each reporting total_count 1: the
accumulated count stays 0 and never equals 1. -/
def emptyPagesTrace : Nat → RunnersPage := fun _ => ⟨[], 1⟩

/-- Over the empty-pages trace nothing ever accumulates. -/
theorem accRunners_emptyPages (m : Nat) : accRunners emptyPagesTrace m = [] := by
  induction m with
  | zero => rfl
  | succ m ih =>
    rw [accRunners_succ, ih]
    rfl

/-- Witness for C9: on the empty-pages trace with reported total 1, the
loop makes no progress and does not return within 100 page requests. -/
theorem getRunner_terminates_iff_witness :
    getRunner emptyPagesTrace "job1-abcdwxyz" 100 = none :=
  (getRunner_terminates_iff emptyPagesTrace "job1-abcdwxyz").2
    (fun n => by rw [accRunners_emptyPages]; simp [emptyPagesTrace]) 100

end EC2Runner

namespace EC2Runner

/-! ## launchInstance (src/instance.ts lines 110-147, claim C5)

launchInstance builds a RunInstancesCommand with MinCount = MaxCount = 1,
the base64-encoded boot script, and TagSpecifications given by
tags && [ { instance, tags }, { volume, tags } ]: since any array (even an
empty one) is truthy in JavaScript, the specifications are present exactly
when ctx.tags?.map(...) is defined, i.e. exactly when the tag list itself
is present; it then sends the command once (through the throttle-retry
wrapper) and returns output.Instances![0]!.  The base64 encoding is
content-preserving, so UserData is modelled as the joined script lines. -/

/-- The two tag resource targets used by the source
(ResourceType.instance and ResourceType.volume). -/
inductive TagResource where
  | instanceResource
  | volume
deriving DecidableEq, Repr

/-- A resource tag ({ Key, Value }). -/
structure Tag where
  Key : String
  Value : String
deriving DecidableEq, Repr

/-- One TagSpecification entry. -/
structure TagSpecification where
  resourceType : TagResource
  Tags : List Tag
deriving DecidableEq, Repr

/-- A created instance as far as the action inspects it. -/
structure Instance where
  InstanceId : Option String
deriving DecidableEq, Repr

/-- The RunInstancesCommand input built by launchInstance. -/
structure RunInstancesRequest where
  MinCount : Nat
  MaxCount : Nat
  UserData : String
  ImageId : Option String
  InstanceType : String
  SubnetId : String
  SecurityGroupIds : List String
  TagSpecifications : Option (List TagSpecification)
deriving DecidableEq, Repr

/-- The launch-relevant fields of a LaunchContext (src/context.ts), with
tags kept optional as the launchInstance code treats them
(ctx.tags?.map(...)). -/
structure LaunchConfig where
  runnerUser : String
  runnerDirectory : String
  repoOwner : String
  repoName : String
  instanceType : String
  subnetId : String
  securityGroupIds : List String
  tags : Option (List (String × String))

/-- The boot-script lines of launchInstance. -/
def userDataLines (ctx : LaunchConfig) (label token : String) : List String :=
  ["#!/bin/sh",
   "cd " ++ ctx.runnerDirectory,
   "sudo -u " ++ ctx.runnerUser
     ++ " ./config.sh --unattended --url https://github.com/"
     ++ ctx.repoOwner ++ "/" ++ ctx.repoName
     ++ " --labels " ++ label ++ " --token " ++ token,
   "sudo -u " ++ ctx.runnerUser ++ " ./run.sh"]

/-- The RunInstancesCommand built by launchInstance for one unit. -/
def buildRunInstancesCommand (ctx : LaunchConfig) (label token : String)
    (ami : Image) : RunInstancesRequest :=
  let tags := ctx.tags.map (fun ts => ts.map (fun kv => Tag.mk kv.1 kv.2))
  { MinCount := 1
    MaxCount := 1
    UserData := String.intercalate "\n" (userDataLines ctx label token)
    ImageId := ami.ImageId
    InstanceType := ctx.instanceType
    SubnetId := ctx.subnetId
    SecurityGroupIds := ctx.securityGroupIds
    TagSpecifications := tags.map (fun t =>
      [⟨TagResource.instanceResource, t⟩, ⟨TagResource.volume, t⟩]) }

/-- The failure modes of launchInstance: a provider rejection, or the crash
of the non-null assertion output.Instances![0]! on a response without
instances. -/
inductive LaunchErr (ε : Type) where
  | provider (e : ε)
  | noInstance
deriving DecidableEq, Repr

/-- Embedding of launchInstance: send is the (already retry-wrapped)
RunInstancesCommand call.  Returns the outcome together with the list of
requests submitted. -/
def launchInstance {ε : Type} (ctx : LaunchConfig) (label token : String)
    (ami : Image) (send : RunInstancesRequest → Except ε (List Instance)) :
    Except (LaunchErr ε) Instance × List RunInstancesRequest :=
  let command := buildRunInstancesCommand ctx label token ami
  (match send command with
   | .error e => .error (.provider e)
   | .ok instances =>
     match instances with
     | [] => .error .noInstance
     | i :: _ => .ok i,
   [command])

/-- C5: launchInstance submits exactly one request, that request asks for
exactly one instance (MinCount = MaxCount = 1), its tag specifications are
present exactly when the configuration's tag list is present and then apply
the unit's tags to both the instance and its attached volume, and a
successful response yields its first created instance descriptor. -/
theorem launchInstance_spec {ε : Type} (ctx : LaunchConfig)
    (label token : String) (ami : Image)
    (send : RunInstancesRequest → Except ε (List Instance)) :
    ((buildRunInstancesCommand ctx label token ami).MinCount = 1
      ∧ (buildRunInstancesCommand ctx label token ami).MaxCount = 1)
    ∧ ((buildRunInstancesCommand ctx label token ami).TagSpecifications.isSome
        ↔ ctx.tags.isSome)
    ∧ (∀ ts, ctx.tags = some ts →
        (buildRunInstancesCommand ctx label token ami).TagSpecifications
          = some [⟨TagResource.instanceResource, ts.map (fun kv => Tag.mk kv.1 kv.2)⟩,
                  ⟨TagResource.volume, ts.map (fun kv => Tag.mk kv.1 kv.2)⟩])
    ∧ ((launchInstance ctx label token ami send).2
        = [buildRunInstancesCommand ctx label token ami])
    ∧ (∀ i rest, send (buildRunInstancesCommand ctx label token ami) = .ok (i :: rest) →
        (launchInstance ctx label token ami send).1 = .ok i) := by
  refine ⟨⟨rfl, rfl⟩, ?_, ?_, rfl, ?_⟩
  · cases htags : ctx.tags with
    | none => simp [buildRunInstancesCommand, htags]
    | some ts => simp [buildRunInstancesCommand, htags]
  · intro ts htags
    simp [buildRunInstancesCommand, htags]
  · intro i rest hsend
    simp only [launchInstance]
    rw [hsend]

/-- Witness for C5 at a concrete configuration with tags present and a
successful provider response. -/
theorem launchInstance_spec_witness :
    (buildRunInstancesCommand
        ⟨"github", "/github/actions", "org", "repo", "t4g.medium", "def34",
          ["hij56"], some [("team", "ci")]⟩
        "job1-abcdwxyz" "tok" ⟨some "ami-1", some "runner", some 60⟩).TagSpecifications
      = some [⟨TagResource.instanceResource, [⟨"team", "ci"⟩]⟩,
              ⟨TagResource.volume, [⟨"team", "ci"⟩]⟩]
    ∧ (launchInstance (ε := Unit)
        ⟨"github", "/github/actions", "org", "repo", "t4g.medium", "def34",
          ["hij56"], some [("team", "ci")]⟩
        "job1-abcdwxyz" "tok" ⟨some "ami-1", some "runner", some 60⟩
        (fun _ => .ok [⟨some "i-123"⟩])).1 = .ok ⟨some "i-123"⟩ := by
  refine ⟨?_, ?_⟩
  · exact (launchInstance_spec
      ⟨"github", "/github/actions", "org", "repo", "t4g.medium", "def34",
        ["hij56"], some [("team", "ci")]⟩
      "job1-abcdwxyz" "tok" ⟨some "ami-1", some "runner", some 60⟩
      (fun _ => (.ok [⟨some "i-123"⟩] : Except Unit (List Instance)))).2.2.1
      [("team", "ci")] rfl
  · exact (launchInstance_spec
      ⟨"github", "/github/actions", "org", "repo", "t4g.medium", "def34",
        ["hij56"], some [("team", "ci")]⟩
      "job1-abcdwxyz" "tok" ⟨some "ami-1", some "runner", some 60⟩
      (fun _ => (.ok [⟨some "i-123"⟩] : Except Unit (List Instance)))).2.2.2.2
      ⟨some "i-123"⟩ [] rfl

end EC2Runner

namespace EC2Runner

/-- Witness for C8 at concrete inputs: a failing second listing call
surfaces as the provider error, and an all-successful listing with zero
surviving images surfaces as the no-match error. -/
theorem selectAmi_failure_modes_witness :
    selectAmi (ε := Nat) [Except.ok [amiNewer], Except.error 3] none
      = .error (.provider 3)
    ∧ selectAmi (ε := Nat) [Except.ok ([] : List Image)] none = .error .noMatch :=
  ⟨(selectAmi_failure_modes [[amiNewer]] 3 [] none).1.1,
   (selectAmi_failure_modes ([[]] : List (List Image)) 3 [] none).2.mpr rfl⟩

/-- Witness for C10 at a concrete trace whose first attempt succeeds: the
operation still settles no earlier than 10 seconds after invocation. -/
theorem retry_min_latency_witness :
    attemptTimeMs 0 = 10000
    ∧ 10000 ≤ retryCompletionTimeMs (fun _ => (OpResult.ok 1 : OpResult Nat Nat)) :=
  retry_min_latency (fun _ => (OpResult.ok 1 : OpResult Nat Nat))

end EC2Runner
